import Mathlib

/-!
# Verification of the stress/rest energy-cycle logger

Shallow embedding of the two source files of the repository:

* `energy_logger.py` — `measure_energy_to_csv`, a duration-bounded sampling
  loop that reads a (voltage, current) pair each tick, integrates energy as
  `power × dt` over samples where both readings are present, writes one CSV
  row per tick, and paces itself on a drift-free `next_tick` schedule.
* `main.py` — the `Sampler` background thread (periodic rows, marker rows,
  flush/close on stop), `parse_levels`, and the `main` protocol driver that
  emits phase markers around rest/stress phases.

Times and measurements are modelled as rationals (`ℚ`); the scheduler's and
integrator's arithmetic uses no float-specific behaviour on the inputs
considered.  A CSV cell that the code leaves empty (`""`) is modelled as
`none`; a cell carrying a number as `some q`.  Clock reads are inputs: each
loop iteration is driven by a `Tick` record carrying the values the clock
and the sensor would have produced at that iteration.
-/

namespace StressEnergyCycle

/-- Outcome of one call to `energy_logger.read_voltage_current()` at a given
tick: either the call raises an exception, or it returns a pair of optional
readings (`None` modelled as `none`). -/
inductive Reading where
  | raises : Reading
  | reads (voltage : Option ℚ) (current : Option ℚ) : Reading
  deriving DecidableEq

/-- One iteration's worth of external inputs to the `measure_energy_to_csv`
loop: `now` is `time.perf_counter()` read at the top of the loop body
(line 63), `reading` the sensor outcome (line 68), and `nowAfter` the second
`time.perf_counter()` read when computing `sleep_for` (line 102). -/
structure Tick where
  now : ℚ
  reading : Reading
  nowAfter : ℚ
  deriving DecidableEq

/-- One data row written by `measure_energy_to_csv` (columns Voltage,
Current, Power, dt, Energy-So-Far; the wall-clock timestamp column carries
no verified content and is omitted).  `none` models an empty cell. -/
structure ELRow where
  voltage : Option ℚ
  current : Option ℚ
  power : Option ℚ
  dt : ℚ
  energy : ℚ
  deriving DecidableEq

/-- Loop state of `measure_energy_to_csv`: the accumulator
`total_energy_joules`, the previous sample time `t_prev`, `sample_idx`,
the scheduling target `next_tick`, plus the trace of rows written and of
the `sleep_for` values computed at line 102 (a `0` entry means the loop
proceeded immediately without sleeping, per the `if sleep_for:` guard). -/
structure ELState where
  total : ℚ
  t_prev : ℚ
  sample_idx : ℕ
  next_tick : ℚ
  rows : List ELRow
  sleeps : List ℚ
  deriving DecidableEq

/-- Initial state of the loop: `total_energy_joules = 0`, `t_prev = t_start`,
`sample_idx = 0`, `next_tick = t_start` (lines 42–48). -/
def initEL (t_start : ℚ) : ELState :=
  ⟨0, t_start, 0, t_start, [], []⟩

/-- The body of the `while True` loop of `measure_energy_to_csv` for a tick
whose sensor read returned `(v, i)` (lines 68–104): compute `dt` (0 for the
first sample), add `power × dt` to the accumulator iff both readings are
present, write the row, advance `next_tick` by the interval and compute
`sleep_for = max(0, next_tick - time.perf_counter())`. -/
def elBody (interval : ℚ) (st : ELState) (tk : Tick) (v i : Option ℚ) : ELState :=
  let dt : ℚ := if 0 < st.sample_idx then tk.now - st.t_prev else 0
  let total : ℚ :=
    match v, i with
    | some vv, some ii => st.total + vv * ii * dt
    | _, _ => st.total
  let row : ELRow :=
    match v, i with
    | some vv, some ii => ⟨some vv, some ii, some (vv * ii), dt, total⟩
    | _, _ => ⟨none, none, none, dt, total⟩
  let nt : ℚ := st.next_tick + interval
  let sleep_for : ℚ := max 0 (nt - tk.nowAfter)
  { total := total
    t_prev := tk.now
    sample_idx := st.sample_idx + 1
    next_tick := nt
    rows := st.rows ++ [row]
    sleeps := st.sleeps ++ [sleep_for] }

/-- The `while True` loop of `measure_energy_to_csv` (lines 62–104), driven
by a finite list of ticks.  Returns the final state and whether the loop was
terminated by an uncaught exception from the sensor read: the call at
line 68 is *not* wrapped in a `try`, so a raising read propagates out of the
loop (`true`).  The loop `break`s normally when `now_perf >= t_end`
(line 64) or when the tick supply ends. -/
def elRun (t_end interval : ℚ) : ELState → List Tick → ELState × Bool
  | st, [] => (st, false)
  | st, tk :: rest =>
    if t_end ≤ tk.now then (st, false)
    else
      match tk.reading with
      | .raises => (st, true)
      | .reads v i => elRun t_end interval (elBody interval st tk v i) rest

/-- Spec-side energy sum, written from the claim: the sum, in input order,
of `power_i × dt_i` over exactly those ticks where both voltage and current
are present, where `dt_i` is the time since the previous tick and the first
tick (previous time `none`) gets `dt = 0`. -/
def specEnergy (prev : Option ℚ) : List Tick → ℚ
  | [] => 0
  | tk :: rest =>
    let dt : ℚ :=
      match prev with
      | none => 0
      | some p => tk.now - p
    let contrib : ℚ :=
      match tk.reading with
      | .reads (some v) (some i) => v * i * dt
      | _ => 0
    contrib + specEnergy (some tk.now) rest

/-- The previous-sample time the loop will use for its next `dt`: `none`
before the first sample (`sample_idx = 0`), otherwise `t_prev`. -/
def prevOf (st : ELState) : Option ℚ :=
  if st.sample_idx = 0 then none else some st.t_prev

lemma elBody_total (interval : ℚ) (st : ELState) (tk : Tick) (v i : Option ℚ) :
    (elBody interval st tk v i).total =
      st.total +
        (match v, i with
         | some vv, some ii =>
             vv * ii * (match prevOf st with | none => 0 | some p => tk.now - p)
         | _, _ => 0) := by
  have hdt : (if 0 < st.sample_idx then tk.now - st.t_prev else 0)
      = (match prevOf st with | none => (0 : ℚ) | some p => tk.now - p) := by
    rcases Nat.eq_zero_or_pos st.sample_idx with h0 | h0
    · simp [prevOf, h0]
    · simp [prevOf, h0, Nat.pos_iff_ne_zero.mp h0]
  rcases v with _ | vv <;> rcases i with _ | ii <;> simp [elBody, hdt]

lemma elBody_prevOf (interval : ℚ) (st : ELState) (tk : Tick) (v i : Option ℚ) :
    prevOf (elBody interval st tk v i) = some tk.now := by
  rcases v with _ | vv <;> rcases i with _ | ii <;> simp [elBody, prevOf]

lemma elRun_total (t_end interval : ℚ) (ticks : List Tick) (st : ELState)
    (h : ∀ tk ∈ ticks, tk.reading ≠ .raises) :
    (elRun t_end interval st ticks).1.total =
      st.total + specEnergy (prevOf st) (ticks.takeWhile (fun x => decide (x.now < t_end))) := by
  induction ticks generalizing st with
  | nil => simp [elRun, specEnergy]
  | cons tk rest ih =>
    by_cases hend : t_end ≤ tk.now
    · simp [elRun, hend, List.takeWhile_cons, not_lt_of_le hend, specEnergy]
    · have hlt : tk.now < t_end := lt_of_not_le hend
      match hr : tk.reading with
      | .raises => exact absurd hr (h tk (List.mem_cons_self _ _))
      | .reads v i =>
        have hrun : elRun t_end interval st (tk :: rest)
            = elRun t_end interval (elBody interval st tk v i) rest := by
          simp [elRun, hend, hr]
        rw [hrun, ih _ (fun x hx => h x (List.mem_cons_of_mem _ hx))]
        rw [List.takeWhile_cons, if_pos (by simpa using hlt)]
        rw [elBody_prevOf, elBody_total]
        simp only [specEnergy, hr]
        rcases v with _ | vv <;> rcases i with _ | ii <;> (simp; try ring)

lemma elRun_rows_extend (t_end interval : ℚ) (ticks : List Tick) (st : ELState) :
    ∃ l, (elRun t_end interval st ticks).1.rows = st.rows ++ l := by
  induction ticks generalizing st with
  | nil => exact ⟨[], by simp [elRun]⟩
  | cons tk rest ih =>
    by_cases hend : t_end ≤ tk.now
    · exact ⟨[], by simp [elRun, hend]⟩
    · match hr : tk.reading with
      | .raises => exact ⟨[], by simp [elRun, hend, hr]⟩
      | .reads v i =>
        obtain ⟨l, hl⟩ := ih (elBody interval st tk v i)
        refine ⟨(elBody interval st tk v i).rows.drop st.rows.length ++ l, ?_⟩
        have hrows : (elBody interval st tk v i).rows
            = st.rows ++ (elBody interval st tk v i).rows.drop st.rows.length := by
          rcases v with _ | vv <;> rcases i with _ | ii <;> simp [elBody]
        have hrun : elRun t_end interval st (tk :: rest)
            = elRun t_end interval (elBody interval st tk v i) rest := by
          simp [elRun, hend, hr]
        rw [hrun, hl, ← List.append_assoc, ← hrows]

lemma elRun_first_row (t_end interval : ℚ) (ticks : List Tick) (st : ELState)
    (hrows : st.rows = []) (hidx : st.sample_idx = 0) (htot : st.total = 0) :
    ∀ r, (elRun t_end interval st ticks).1.rows.head? = some r →
      r.dt = 0 ∧ r.energy = 0 := by
  induction ticks generalizing st with
  | nil => intro r hr; rw [elRun] at hr; simp [hrows] at hr
  | cons tk rest ih =>
    intro r hr
    by_cases hend : t_end ≤ tk.now
    · simp [elRun, hend, hrows] at hr
    · match hmr : tk.reading with
      | .raises => simp [elRun, hend, hmr, hrows] at hr
      | .reads v i =>
        have hrun : elRun t_end interval st (tk :: rest)
            = elRun t_end interval (elBody interval st tk v i) rest := by
          simp [elRun, hend, hmr]
        rw [hrun] at hr
        obtain ⟨l, hl⟩ := elRun_rows_extend t_end interval rest (elBody interval st tk v i)
        rw [hl] at hr
        rcases v with _ | vv <;> rcases i with _ | ii <;>
          (simp [elBody, hrows, hidx, htot] at hr; simp [← hr])

/-- C1: for every sequence of ticks whose sensor reads return (rather than
raise), the cumulative energy of the `measure_energy_to_csv` loop equals the
sum, in input order, of `power_i × dt_i` over exactly those processed
samples where both voltage and current are present (`power = voltage ×
current`), where `dt_i` is the monotonic time since the previous sample and
the very first sample gets `dt = 0`; in particular the first row always
records `dt = 0` and cumulative energy `0`, regardless of its power. -/
theorem measure_energy_total_correct (t_start t_end interval : ℚ) (ticks : List Tick)
    (h : ∀ tk ∈ ticks, tk.reading ≠ .raises) :
    (elRun t_end interval (initEL t_start) ticks).1.total
      = specEnergy none (ticks.takeWhile (fun x => decide (x.now < t_end)))
    ∧ (∀ r, (elRun t_end interval (initEL t_start) ticks).1.rows.head? = some r →
        r.dt = 0 ∧ r.energy = 0) := by
  constructor
  · simpa [initEL, prevOf] using elRun_total t_end interval ticks (initEL t_start) h
  · exact elRun_first_row t_end interval ticks (initEL t_start) rfl rfl rfl

/-- Concrete tick sequence used to instantiate C1: two valid samples and one
with a missing voltage, all fired before `t_end`. -/
def c1ticks : List Tick :=
  [⟨0, .reads (some 2) (some 3), 0⟩,
   ⟨1, .reads (some 2) (some 3), 1⟩,
   ⟨2, .reads none (some 1), 2⟩]

theorem measure_energy_total_correct_witness :
    (∀ tk ∈ c1ticks, tk.reading ≠ .raises)
    ∧ (elRun 10 1 (initEL 0) c1ticks).1.total
        = specEnergy none (c1ticks.takeWhile (fun x => decide (x.now < 10))) :=
  ⟨by decide, (measure_energy_total_correct 0 10 1 c1ticks (by decide)).1⟩

/-- Cumulative energy recorded on the last row of the list, or `e` when the
list is empty. -/
def lastEnergy (e : ℚ) (rows : List ELRow) : ℚ :=
  (rows.getLast?.map ELRow.energy).getD e

lemma lastEnergy_append (e : ℚ) (rows : List ELRow) (r : ELRow) :
    lastEnergy e (rows ++ [r]) = r.energy := by
  simp [lastEnergy]

lemma lastEnergy_cons (e : ℚ) (a : ELRow) (l : List ELRow) :
    lastEnergy e (a :: l) = lastEnergy a.energy l := by
  cases l with
  | nil => simp [lastEnergy]
  | cons b m =>
    unfold lastEnergy
    rw [List.getLast?_cons_cons]
    cases h : (b :: m).getLast? with
    | none => simp at h
    | some x => simp

/-- Stream-level reading of the C2 invariant: every row of the list whose
voltage or current cell is empty also has an empty power cell and carries
the same cumulative energy as the row before it (`e` is the energy before
the first row of the list). -/
def missingKeepsEnergy : ℚ → List ELRow → Prop
  | _, [] => True
  | e, r :: rest =>
    ((r.voltage = none ∨ r.current = none) → r.power = none ∧ r.energy = e)
    ∧ missingKeepsEnergy r.energy rest

lemma missingKeepsEnergy_append (e : ℚ) (rows : List ELRow) (r : ELRow) :
    missingKeepsEnergy e (rows ++ [r]) ↔
      missingKeepsEnergy e rows
      ∧ ((r.voltage = none ∨ r.current = none) →
          r.power = none ∧ r.energy = lastEnergy e rows) := by
  induction rows generalizing e with
  | nil => simp [missingKeepsEnergy, lastEnergy]
  | cons a l ih =>
    simp only [List.cons_append, missingKeepsEnergy, List.append_eq, ih,
      lastEnergy_cons, and_assoc]

lemma elRun_missingKeepsEnergy (t_end interval : ℚ) (ticks : List Tick) (st : ELState)
    (hinv : st.total = lastEnergy 0 st.rows) (hmk : missingKeepsEnergy 0 st.rows) :
    missingKeepsEnergy 0 (elRun t_end interval st ticks).1.rows := by
  induction ticks generalizing st with
  | nil => simpa [elRun]
  | cons tk rest ih =>
    by_cases hend : t_end ≤ tk.now
    · simpa [elRun, hend]
    · match hmr : tk.reading with
      | .raises => simpa [elRun, hend, hmr]
      | .reads v i =>
        have hrun : elRun t_end interval st (tk :: rest)
            = elRun t_end interval (elBody interval st tk v i) rest := by
          simp [elRun, hend, hmr]
        rw [hrun]
        apply ih
        · rcases v with _ | vv <;> rcases i with _ | ii <;>
            simp [elBody, lastEnergy_append]
        · rcases v with _ | vv <;> rcases i with _ | ii <;>
            simp [elBody, missingKeepsEnergy_append, hmk, hinv]

/-- The power a tick contributes when both readings are present. -/
def powerOf : Reading → Option ℚ
  | .reads (some v) (some i) => some (v * i)
  | _ => none

lemma elRun_energy_chain (t_end interval : ℚ) (ticks : List Tick) (st : ELState)
    (hinv : st.total = lastEnergy 0 st.rows)
    (hchain : List.Chain' (fun a b => a.energy ≤ b.energy) st.rows)
    (htimes : List.Chain' (· ≤ ·) (st.t_prev :: ticks.map Tick.now))
    (hpow : ∀ tk ∈ ticks, 0 ≤ (powerOf tk.reading).getD 0) :
    List.Chain' (fun a b => a.energy ≤ b.energy) (elRun t_end interval st ticks).1.rows := by
  induction ticks generalizing st with
  | nil => simpa [elRun]
  | cons tk rest ih =>
    by_cases hend : t_end ≤ tk.now
    · simpa [elRun, hend]
    · match hmr : tk.reading with
      | .raises => simpa [elRun, hend, hmr]
      | .reads v i =>
        have hrun : elRun t_end interval st (tk :: rest)
            = elRun t_end interval (elBody interval st tk v i) rest := by
          simp [elRun, hend, hmr]
        rw [List.map_cons] at htimes
        have hprev : st.t_prev ≤ tk.now := (List.chain'_cons.mp htimes).1
        have htimes' : List.Chain' (· ≤ ·) (tk.now :: rest.map Tick.now) :=
          (List.chain'_cons.mp htimes).2
        have hpow' : ∀ x ∈ rest, 0 ≤ (powerOf x.reading).getD 0 :=
          fun x hx => hpow x (List.mem_cons_of_mem _ hx)
        have hdt : 0 ≤ (if 0 < st.sample_idx then tk.now - st.t_prev else 0) := by
          rcases Nat.eq_zero_or_pos st.sample_idx with h0 | h0
          · simp [h0]
          · simp [h0, sub_nonneg, hprev]
        have happ : ∀ r : ELRow, st.total ≤ r.energy →
            List.Chain' (fun a b => a.energy ≤ b.energy) (st.rows ++ [r]) := by
          intro r hr
          rw [List.chain'_append]
          refine ⟨hchain, List.chain'_singleton _, ?_⟩
          intro x hx y hy
          simp only [List.head?_cons, Option.mem_def, Option.some.injEq] at hy
          subst hy
          have hx' : st.rows.getLast? = some x := hx
          have hxe : x.energy = st.total := by rw [hinv]; simp [lastEnergy, hx']
          linarith
        rw [hrun]
        rcases v with _ | vv <;> rcases i with _ | ii
        · refine ih _ (by simp [elBody, lastEnergy_append]) ?_ htimes' hpow'
          simp only [elBody]
          exact happ _ (le_refl _)
        · refine ih _ (by simp [elBody, lastEnergy_append]) ?_ htimes' hpow'
          simp only [elBody]
          exact happ _ (le_refl _)
        · refine ih _ (by simp [elBody, lastEnergy_append]) ?_ htimes' hpow'
          simp only [elBody]
          exact happ _ (le_refl _)
        · have hp : 0 ≤ vv * ii := by
            have hpt := hpow tk (List.mem_cons_self _ _)
            rw [hmr] at hpt
            simpa [powerOf] using hpt
          refine ih _ (by simp [elBody, lastEnergy_append]) ?_ htimes' hpow'
          simp only [elBody]
          exact happ _ (le_add_of_nonneg_right (mul_nonneg hp hdt))

/-- The sequence of `sleep_for` values computed by the drift-free scheduler
of `measure_energy_to_csv`: at the k-th processed tick the target advances
to `base + (k+1)·interval` and the loop sleeps
`max 0 (target − nowAfter)` (a zero means it proceeds immediately). -/
def specSleeps (base interval : ℚ) : List Tick → List ℚ
  | [] => []
  | tk :: rest =>
      max 0 (base + interval - tk.nowAfter) :: specSleeps (base + interval) interval rest

lemma elRun_sched (t_end interval : ℚ) (ticks : List Tick) (st : ELState)
    (h : ∀ tk ∈ ticks, tk.reading ≠ .raises) :
    (elRun t_end interval st ticks).1.next_tick
        = st.next_tick
            + ((ticks.takeWhile (fun x => decide (x.now < t_end))).length : ℚ) * interval
    ∧ (elRun t_end interval st ticks).1.sleeps
        = st.sleeps
            ++ specSleeps st.next_tick interval
                (ticks.takeWhile (fun x => decide (x.now < t_end))) := by
  induction ticks generalizing st with
  | nil => simp [elRun, specSleeps]
  | cons tk rest ih =>
    by_cases hend : t_end ≤ tk.now
    · simp [elRun, hend, List.takeWhile_cons, not_lt_of_le hend, specSleeps]
    · have hlt : tk.now < t_end := lt_of_not_le hend
      match hr : tk.reading with
      | .raises => exact absurd hr (h tk (List.mem_cons_self _ _))
      | .reads v i =>
        have hrun : elRun t_end interval st (tk :: rest)
            = elRun t_end interval (elBody interval st tk v i) rest := by
          simp [elRun, hend, hr]
        obtain ⟨ihn, ihs⟩ :=
          ih (elBody interval st tk v i) (fun x hx => h x (List.mem_cons_of_mem _ hx))
        rw [List.takeWhile_cons, if_pos (by simpa using hlt)]
        constructor
        · rw [hrun, ihn]
          simp only [elBody, List.length_cons]
          push_cast
          ring
        · rw [hrun, ihs, specSleeps]
          simp only [elBody]
          simp

lemma specSleeps_get (base interval : ℚ) (l : List Tick) (k : ℕ) :
    (specSleeps base interval l)[k]?
      = (l[k]?).map (fun tk => max 0 (base + ((k + 1 : ℕ) : ℚ) * interval - tk.nowAfter)) := by
  induction l generalizing base k with
  | nil => simp [specSleeps]
  | cons tk rest ih =>
    cases k with
    | zero => simp [specSleeps]
    | succ n =>
      rw [specSleeps, List.getElem?_cons_succ, List.getElem?_cons_succ, ih (base + interval) n]
      have harith : ∀ x : ℚ, base + interval + ((n + 1 : ℕ) : ℚ) * interval - x
          = base + ((n + 1 + 1 : ℕ) : ℚ) * interval - x := by
        intro x; push_cast; ring
      simp only [harith]

/-- One data row of the `Sampler` CSV (main.py): wall-clock timestamp
string, epoch seconds, the load annotation read under the lock, and the
optional voltage/current/power cells (`none` models a cell the code writes
as `""`).  The marker column of a data row is empty. -/
structure SRow where
  ts : String
  epoch : ℚ
  load : ℤ
  voltage : Option ℚ
  current : Option ℚ
  power : Option ℚ
  deriving DecidableEq

/-- A row of the `Sampler` CSV file: the header row, a data row, or a
marker row (whose numeric columns are empty and whose marker column holds
`text`). -/
inductive CsvRow where
  | header : CsvRow
  | data (r : SRow) : CsvRow
  | marker (ts : String) (epoch : ℚ) (text : String) : CsvRow
  deriving DecidableEq

/-- A buffered output file: the rows already flushed to durable storage,
the rows still in the write buffer, whether the handle was closed, and how
many times `close()` was called. -/
structure FileState where
  durable : List CsvRow
  buffer : List CsvRow
  closed : Bool
  closeCount : ℕ
  deriving DecidableEq

/-- `csv.writer.writerow`: appends one row to the write buffer. -/
def writeRow (r : CsvRow) (f : FileState) : FileState :=
  { f with buffer := f.buffer ++ [r] }

/-- `file.flush()`: moves the buffered rows to durable storage. -/
def flushFile (f : FileState) : FileState :=
  { f with durable := f.durable ++ f.buffer, buffer := [] }

/-- `file.close()`: flushes, marks the handle closed and counts the call. -/
def closeFile (f : FileState) : FileState :=
  { flushFile f with closed := true, closeCount := f.closeCount + 1 }

/-- One iteration's worth of external inputs to the `Sampler.run` loop:
the wall-clock ISO timestamp, `time.time()` at line 98, the load value
read under the lock at line 106, and the sensor outcome at line 110. -/
structure STick where
  ts : String
  now : ℚ
  load : ℤ
  reading : Reading
  deriving DecidableEq

/-- The data row `Sampler.run` writes for one tick (lines 109–127): a
raising sensor read is caught and recorded as `(None, None)`; power is
`v * i` iff both readings are present; each missing value is written as an
empty cell, while a present value is written even if the other is
missing. -/
def dataRow (tk : STick) : SRow :=
  let vi : Option ℚ × Option ℚ :=
    match tk.reading with
    | .raises => (none, none)
    | .reads v i => (v, i)
  let p : Option ℚ :=
    match vi.1, vi.2 with
    | some vv, some ii => some (vv * ii)
    | _, _ => none
  ⟨tk.ts, tk.now, tk.load, vi.1, vi.2, p⟩

/-- Loop state of `Sampler.run`: the schedule target `next_t`, the trace of
sleep durations (an entry `0` means the loop did not sleep), and the output
file. -/
structure SState where
  next_t : ℚ
  sleeps : List ℚ
  file : FileState
  deriving DecidableEq

/-- The `while not self.stop_event.is_set()` loop of `Sampler.run`
(lines 95–130), driven by a finite list of ticks; the stop event is
observed once the tick supply ends.  Each iteration sleeps
`next_t − now` when it is ahead of schedule (line 99–100), writes one data
row, and advances `next_t` by the fixed interval (line 130). -/
def srun (interval : ℚ) : SState → List STick → SState
  | st, [] => st
  | st, tk :: rest =>
    let sleep : ℚ := if tk.now < st.next_t then st.next_t - tk.now else 0
    srun interval
      { next_t := st.next_t + interval
        sleeps := st.sleeps ++ [sleep]
        file := writeRow (.data (dataRow tk)) st.file } rest

/-- `Sampler.__init__` (lines 64–67): opens the file and writes the header
row (buffered; nothing is flushed yet). -/
def samplerInit : FileState := ⟨[], [CsvRow.header], false, 0⟩

/-- `Sampler.run` from thread start to clean shutdown (lines 88–134): the
loop runs for the given ticks, then, once the stop event is observed, the
thread performs the final `flush()` and `close()` (lines 133–134). -/
def samplerFull (t0 interval : ℚ) (ticks : List STick) : SState :=
  let st := srun interval ⟨t0, [], samplerInit⟩ ticks
  { st with file := closeFile (flushFile st.file) }

/-- `Sampler.mark` (lines 77–86): writes a single marker row (numeric
columns empty, marker column `text`) and immediately flushes the file. -/
def mark (ts : String) (epoch : ℚ) (text : String) (f : FileState) : FileState :=
  flushFile (writeRow (.marker ts epoch text) f)

lemma srun_file (interval : ℚ) (ticks : List STick) (st : SState) :
    (srun interval st ticks).file.buffer
        = st.file.buffer ++ ticks.map (fun tk => CsvRow.data (dataRow tk))
    ∧ (srun interval st ticks).file.durable = st.file.durable
    ∧ (srun interval st ticks).file.closed = st.file.closed
    ∧ (srun interval st ticks).file.closeCount = st.file.closeCount := by
  induction ticks generalizing st with
  | nil => simp [srun]
  | cons tk rest ih =>
    simp only [srun]
    have h := ih { next_t := st.next_t + interval
                   sleeps := st.sleeps ++ [if tk.now < st.next_t then st.next_t - tk.now else 0]
                   file := writeRow (.data (dataRow tk)) st.file }
    refine ⟨?_, ?_, ?_, ?_⟩
    · rw [h.1]; simp [writeRow]
    · rw [h.2.1]; simp [writeRow]
    · rw [h.2.2.1]; simp [writeRow]
    · rw [h.2.2.2]; simp [writeRow]

/-- The sequence of sleep durations of the `Sampler.run` scheduler: at the
k-th tick the target is `base + k·interval`; the loop sleeps
`target − now` when the current time is still before the target, and does
not sleep (`0`) when the tick overran. -/
def specSleepsS (base interval : ℚ) : List STick → List ℚ
  | [] => []
  | tk :: rest =>
      (if tk.now < base then base - tk.now else 0) :: specSleepsS (base + interval) interval rest

lemma srun_sched (interval : ℚ) (ticks : List STick) (st : SState) :
    (srun interval st ticks).next_t = st.next_t + (ticks.length : ℚ) * interval
    ∧ (srun interval st ticks).sleeps
        = st.sleeps ++ specSleepsS st.next_t interval ticks := by
  induction ticks generalizing st with
  | nil => simp [srun, specSleepsS]
  | cons tk rest ih =>
    simp only [srun]
    have h := ih { next_t := st.next_t + interval
                   sleeps := st.sleeps ++ [if tk.now < st.next_t then st.next_t - tk.now else 0]
                   file := writeRow (.data (dataRow tk)) st.file }
    constructor
    · rw [h.1]
      simp only [List.length_cons]
      push_cast
      ring
    · rw [h.2, specSleepsS]
      simp

lemma specSleepsS_get (base interval : ℚ) (l : List STick) (k : ℕ) :
    (specSleepsS base interval l)[k]?
      = (l[k]?).map (fun tk =>
          if tk.now < base + (k : ℚ) * interval
          then base + (k : ℚ) * interval - tk.now else 0) := by
  induction l generalizing base k with
  | nil => simp [specSleepsS]
  | cons tk rest ih =>
    cases k with
    | zero => simp [specSleepsS]
    | succ n =>
      rw [specSleepsS, List.getElem?_cons_succ, List.getElem?_cons_succ, ih (base + interval) n]
      have harith : base + interval + (n : ℚ) * interval
          = base + ((n + 1 : ℕ) : ℚ) * interval := by
        push_cast; ring
      simp only [harith]

/-- C2 counterexample: in the `Sampler.run` variant, a tick whose sensor
read returns a missing voltage but a present current (5 A) is written with
the current cell populated — not empty — contradicting the claim that the
row's voltage, current and power fields are all empty whenever either
reading is missing. -/
theorem missing_reading_row_counterexample :
    (srun 1 ⟨0, [], samplerInit⟩ [⟨"t", 0, 0, .reads none (some 5)⟩]).file.buffer
      = [CsvRow.header, .data ⟨"t", 0, 0, none, some 5, none⟩]
    ∧ (⟨"t", 0, 0, none, some 5, none⟩ : SRow).current ≠ none := by
  exact ⟨by decide, by decide⟩

/-- C2 (amended): a sample with a missing voltage or current never
contributes to the integral and its power cell is empty in both variants.
In the duration-bounded variant (`measure_energy_to_csv`) the row's
voltage, current and power cells are all empty and the accumulator is
unchanged — stream-wise, every row with an empty voltage or current cell
carries the same cumulative energy as the prior row.  In the `Sampler`
thread variant each missing value is written as an empty cell and power is
empty, but a reading that is present is still written even when the other
one is missing. -/
theorem missing_reading_blank_row :
    (∀ (interval : ℚ) (st : ELState) (tk : Tick) (v i : Option ℚ),
        (v = none ∨ i = none) →
          (elBody interval st tk v i).rows
              = st.rows ++ [⟨none, none, none,
                  if 0 < st.sample_idx then tk.now - st.t_prev else 0, st.total⟩]
            ∧ (elBody interval st tk v i).total = st.total)
    ∧ (∀ t_start t_end interval : ℚ, ∀ ticks : List Tick,
        missingKeepsEnergy 0 (elRun t_end interval (initEL t_start) ticks).1.rows)
    ∧ (∀ (tk : STick) (v i : Option ℚ), tk.reading = .reads v i →
        (dataRow tk).voltage = v ∧ (dataRow tk).current = i
          ∧ ((v = none ∨ i = none) → (dataRow tk).power = none)) := by
  refine ⟨?_, ?_, ?_⟩
  · rintro interval st tk v i h
    rcases v with _ | vv
    · exact ⟨by simp [elBody], by simp [elBody]⟩
    · rcases i with _ | ii
      · exact ⟨by simp [elBody], by simp [elBody]⟩
      · rcases h with h | h <;> simp at h
  · intro t_start t_end interval ticks
    exact elRun_missingKeepsEnergy t_end interval ticks (initEL t_start)
      (by simp [initEL, lastEnergy]) (by simp [initEL, missingKeepsEnergy])
  · intro tk v i hr
    rcases v with _ | vv
    · simp [dataRow, hr]
    · rcases i with _ | ii
      · simp [dataRow, hr]
      · simp [dataRow, hr]

theorem missing_reading_blank_row_witness :
    (elBody 1 (initEL 0) ⟨2, .reads none (some 5), 2⟩ none (some 5)).total
      = (initEL 0).total :=
  (missing_reading_blank_row.1 1 (initEL 0) ⟨2, .reads none (some 5), 2⟩ none (some 5)
    (Or.inl rfl)).2

/-- C3 counterexample: in the duration-bounded variant
(`measure_energy_to_csv`) the sensor read at line 68 is not wrapped in a
try/except, so a raising read terminates the loop: the run aborts (`true`),
no row is written for the raising tick, and the subsequent tick is never
processed — the loop does not treat the exception as a missing reading. -/
theorem raising_read_aborts_duration_loop :
    elRun 10 1 (initEL 0) [⟨0, .raises, 0⟩, ⟨1, .reads (some 1) (some 1), 1⟩]
      = (initEL 0, true) := by decide

/-- C3 (amended): a raising sensor read is caught and treated identically
to a missing reading only in the `Sampler` thread variant — the caught
exception yields a row with empty voltage/current/power cells and the loop
goes on writing one row per tick — whereas in the duration-bounded variant
the read is unguarded and a raising read terminates the loop at that
tick. -/
theorem raising_read_handling :
    (∀ tk : STick, tk.reading = .raises →
        dataRow tk = ⟨tk.ts, tk.now, tk.load, none, none, none⟩)
    ∧ (∀ (interval : ℚ) (st : SState) (ticks : List STick),
        ((srun interval st ticks).file.buffer).length
          = st.file.buffer.length + ticks.length)
    ∧ (∀ (t_end interval : ℚ) (st : ELState) (tk : Tick) (rest : List Tick),
        tk.now < t_end → tk.reading = .raises →
          elRun t_end interval st (tk :: rest) = (st, true)) := by
  refine ⟨?_, ?_, ?_⟩
  · intro tk h; simp [dataRow, h]
  · intro interval st ticks
    rw [(srun_file interval ticks st).1]
    simp
  · intro t_end interval st tk rest hlt hr
    simp [elRun, not_le_of_lt hlt, hr]

theorem raising_read_handling_witness :
    dataRow ⟨"t", 0, 0, .raises⟩ = ⟨"t", 0, 0, none, none, none⟩
    ∧ elRun 10 1 (initEL 0) [⟨0, .raises, 0⟩] = (initEL 0, true) :=
  ⟨raising_read_handling.1 ⟨"t", 0, 0, .raises⟩ rfl,
   raising_read_handling.2.2 10 1 (initEL 0) ⟨0, .raises, 0⟩ [] (by norm_num) rfl⟩

/-- C4: both schedulers keep `next_tick` on the target schedule.  In the
duration-bounded variant, after `n` processed ticks `next_tick` is exactly
`t_start + n·interval` — independent of the actual fire times — and the
k-th sleep is `max 0 (target − now)` with target `t_start + (k+1)·interval`
(zero sleep, i.e. proceed immediately, when the tick overran).  In the
`Sampler` thread variant, `next_t` after `n` ticks is `t0 + n·interval` and
the k-th iteration sleeps `target − now` iff `now < target` with target
`t0 + k·interval`, else it does not sleep. -/
theorem scheduler_drift_free (t_start t_end interval t0 : ℚ)
    (ticks : List Tick) (sticks : List STick)
    (h : ∀ tk ∈ ticks, tk.reading ≠ .raises) :
    ((elRun t_end interval (initEL t_start) ticks).1.next_tick
        = t_start + ((ticks.takeWhile (fun x => decide (x.now < t_end))).length : ℚ) * interval
      ∧ ∀ (k : ℕ) (tk : Tick),
          (ticks.takeWhile (fun x => decide (x.now < t_end)))[k]? = some tk →
            (elRun t_end interval (initEL t_start) ticks).1.sleeps[k]?
              = some (max 0 (t_start + ((k + 1 : ℕ) : ℚ) * interval - tk.nowAfter)))
    ∧ ((srun interval ⟨t0, [], samplerInit⟩ sticks).next_t
        = t0 + (sticks.length : ℚ) * interval
      ∧ ∀ (k : ℕ) (tk : STick), sticks[k]? = some tk →
          (srun interval ⟨t0, [], samplerInit⟩ sticks).sleeps[k]?
            = some (if tk.now < t0 + (k : ℚ) * interval
                    then t0 + (k : ℚ) * interval - tk.now else 0)) := by
  obtain ⟨he1, he2⟩ := elRun_sched t_end interval ticks (initEL t_start) h
  obtain ⟨hs1, hs2⟩ := srun_sched interval sticks ⟨t0, [], samplerInit⟩
  refine ⟨⟨by simpa [initEL] using he1, ?_⟩, ⟨by simpa using hs1, ?_⟩⟩
  · intro k tk hk
    rw [he2]
    simp only [initEL, List.nil_append]
    rw [specSleeps_get]
    simp [hk]
  · intro k tk hk
    rw [hs2]
    simp only [List.nil_append]
    rw [specSleepsS_get]
    simp [hk]

theorem scheduler_drift_free_witness :
    (∀ tk ∈ c1ticks, tk.reading ≠ .raises)
    ∧ (elRun 10 1 (initEL 0) c1ticks).1.next_tick
        = 0 + ((c1ticks.takeWhile (fun x => decide (x.now < 10))).length : ℚ) * 1 :=
  ⟨by decide, (scheduler_drift_free 0 10 1 0 c1ticks [] (by decide)).1.1⟩

/-- C5: once the `Sampler` loop observes the stop signal it flushes and
closes the sink exactly once; the resulting file is well-formed — the
header row first, then one data row per tick, nothing left unflushed — and
stopping before any tick has fired still leaves a file consisting of
exactly the header row. -/
theorem stop_flushes_and_closes_once (t0 interval : ℚ) (ticks : List STick) :
    (samplerFull t0 interval ticks).file.closeCount = 1
    ∧ (samplerFull t0 interval ticks).file.closed = true
    ∧ (samplerFull t0 interval ticks).file.buffer = []
    ∧ (samplerFull t0 interval ticks).file.durable
        = CsvRow.header :: ticks.map (fun tk => CsvRow.data (dataRow tk))
    ∧ (samplerFull t0 interval []).file.durable = [CsvRow.header] := by
  obtain ⟨h1, h2, h3, h4⟩ := srun_file interval ticks ⟨t0, [], samplerInit⟩
  have hfile : (samplerFull t0 interval ticks).file
      = closeFile (flushFile (srun interval ⟨t0, [], samplerInit⟩ ticks).file) := rfl
  refine ⟨?_, ?_, ?_, ?_, ?_⟩
  · rw [hfile]
    simp only [closeFile, flushFile]
    rw [h4]
    rfl
  · rw [hfile]; rfl
  · rw [hfile]; rfl
  · rw [hfile]
    simp only [closeFile, flushFile]
    rw [h2, h1]
    simp [samplerInit]
  · rfl

/-- C9 counterexample: with a monotone clock (times 0 then 1) but a
negative parsed voltage at the second sample, the cumulative energy
recorded at the later row is strictly below the earlier row's: the
accumulator is not monotone over every sequence of readings the sensor
source can return. -/
theorem energy_not_monotone_counterexample :
    ((elRun 10 1 (initEL 0)
        [⟨0, .reads (some 1) (some 1), 0⟩, ⟨1, .reads (some (-1)) (some 1), 1⟩]).1.rows.map
          ELRow.energy) = [0, -1]
    ∧ ¬ List.Chain' (fun a b => a.energy ≤ b.energy)
        (elRun 10 1 (initEL 0)
          [⟨0, .reads (some 1) (some 1), 0⟩,
           ⟨1, .reads (some (-1)) (some 1), 1⟩]).1.rows := by
  exact ⟨by norm_num [elRun, elBody, initEL],
         by norm_num [elRun, elBody, initEL, List.chain'_cons]⟩

/-- C9 (amended): the energy accumulator is monotonically non-decreasing
across consecutive rows provided the monotonic clock is non-decreasing and
every valid sample's power (`voltage × current`) is non-negative; the code
itself puts no sign restriction on parsed readings, so a negative reading
can decrease the accumulator. -/
theorem energy_monotone_nonneg_power (t_start t_end interval : ℚ) (ticks : List Tick)
    (htimes : List.Chain' (· ≤ ·) (t_start :: ticks.map Tick.now))
    (hpow : ∀ tk ∈ ticks, 0 ≤ (powerOf tk.reading).getD 0) :
    List.Chain' (fun a b => a.energy ≤ b.energy)
      (elRun t_end interval (initEL t_start) ticks).1.rows :=
  elRun_energy_chain t_end interval ticks (initEL t_start)
    (by simp [initEL, lastEnergy]) (by simp [initEL]) htimes hpow

theorem energy_monotone_nonneg_power_witness :
    List.Chain' (· ≤ ·) ((0 : ℚ) :: c1ticks.map Tick.now)
    ∧ List.Chain' (fun a b => a.energy ≤ b.energy)
        (elRun 10 1 (initEL 0) c1ticks).1.rows :=
  ⟨by norm_num [c1ticks, List.chain'_cons],
   energy_monotone_nonneg_power 0 10 1 c1ticks
     (by norm_num [c1ticks, List.chain'_cons]) (by norm_num [c1ticks, powerOf])⟩

/-- C10: `Sampler.mark` writes exactly one marker row and flushes before
returning: afterwards the durable file contains everything written before
the call (whether it was still buffered or already durable) followed by
exactly that one marker row, the buffer is empty, and the handle's
closed state is untouched. -/
theorem mark_flushes_immediately (ts : String) (epoch : ℚ) (text : String) (f : FileState) :
    (mark ts epoch text f).durable
        = f.durable ++ f.buffer ++ [CsvRow.marker ts epoch text]
    ∧ (mark ts epoch text f).buffer = []
    ∧ (mark ts epoch text f).closed = f.closed
    ∧ (mark ts epoch text f).closeCount = f.closeCount := by
  refine ⟨?_, rfl, rfl, rfl⟩
  simp [mark, flushFile, writeRow, List.append_assoc]

/-! ## Phase controller (`main`, main.py lines 203–227) -/

/-- The marker written at line 212: `f"REST_BEGIN_level_{lvl}"`. -/
def restBeginMarker (lvl : ℤ) : String := "REST_BEGIN_level_" ++ toString lvl

/-- The marker written at line 214: `f"REST_END_level_{lvl}"`. -/
def restEndMarker (lvl : ℤ) : String := "REST_END_level_" ++ toString lvl

/-- The marker written at line 218: `f"STRESS_{lvl}_BEGIN"`. -/
def stressBeginMarker (lvl : ℤ) : String := "STRESS_" ++ (toString lvl ++ "_BEGIN")

/-- The marker written at line 220: `f"STRESS_{lvl}_END"`. -/
def stressEndMarker (lvl : ℤ) : String := "STRESS_" ++ (toString lvl ++ "_END")

/-- Pop the outcome of the next `run_cmd` invocation from the outcome
stream: `true` means the command raises (with stress-ng present a non-zero
exit raises `CalledProcessError` because of `check=True`); an exhausted
stream means every remaining command succeeds.  In the simulated
no-stress-ng mode `run_cmd` only sleeps and never raises, so that mode is
the empty (all-`false`) stream. -/
def takeOutcome : List Bool → Bool × List Bool
  | [] => (false, [])
  | b :: bs => (b, bs)

/-- The `for lvl in levels` loop of `main` (lines 209–220): for each level
it marks rest begin, runs the rest command, marks rest end, marks stress
begin, runs the stress command, marks stress end.  A raising command
aborts the loop at that point (the exception propagates).  Returns the
markers written by the loop, the unconsumed outcomes, and whether the loop
completed without an exception. -/
def protoLoop : List ℤ → List Bool → List String × List Bool × Bool
  | [], outs => ([], outs, true)
  | lvl :: rest, outs =>
    match takeOutcome outs with
    | (true, outs1) => ([restBeginMarker lvl], outs1, false)
    | (false, outs1) =>
      match takeOutcome outs1 with
      | (true, outs2) =>
          ([restBeginMarker lvl, restEndMarker lvl, stressBeginMarker lvl], outs2, false)
      | (false, outs2) =>
          let res := protoLoop rest outs2
          (restBeginMarker lvl :: restEndMarker lvl :: stressBeginMarker lvl
             :: stressEndMarker lvl :: res.1, res.2)

/-- Result of a protocol run: the marker texts written in order, whether
the `finally` teardown (`sampler.stop()`) ran, and whether the level loop
completed without an exception. -/
structure ProtoResult where
  markers : List String
  stopped : Bool
  ok : Bool
  deriving DecidableEq

/-- `main` after argument parsing (lines 203–227): starts the sampler,
marks `START_PROTOCOL`, runs the level loop, marks `END_PROTOCOL` — a call
placed inside the `try` block after the loop, so it is skipped when a level
raises — and in all cases runs the `finally` teardown that stops the
sampler. -/
def mainProtocol (levels : List ℤ) (outs : List Bool) : ProtoResult :=
  let res := protoLoop levels outs
  { markers := "START_PROTOCOL" :: (res.1 ++ if res.2.2 then ["END_PROTOCOL"] else [])
    stopped := true
    ok := res.2.2 }

lemma append_ne_end_protocol (p x : String) (c : Char)
    (hp : p.data.head? = some c) (hc : c ≠ 'E') : p ++ x ≠ "END_PROTOCOL" := by
  intro h
  have hd : (p ++ x).data = ("END_PROTOCOL" : String).data := congrArg String.data h
  rw [String.data_append] at hd
  cases hpd : p.data with
  | nil => rw [hpd] at hp; simp at hp
  | cons a l =>
    rw [hpd] at hp hd
    simp only [List.head?_cons, Option.some.injEq] at hp
    subst hp
    have hE : ("END_PROTOCOL" : String).data.head? = some 'E' := rfl
    rw [← hd] at hE
    simp only [List.cons_append, List.head?_cons, Option.some.injEq] at hE
    exact hc hE

lemma restBegin_ne_end (lvl : ℤ) : restBeginMarker lvl ≠ "END_PROTOCOL" :=
  append_ne_end_protocol "REST_BEGIN_level_" (toString lvl) 'R' rfl (by decide)

lemma restEnd_ne_end (lvl : ℤ) : restEndMarker lvl ≠ "END_PROTOCOL" :=
  append_ne_end_protocol "REST_END_level_" (toString lvl) 'R' rfl (by decide)

lemma stressBegin_ne_end (lvl : ℤ) : stressBeginMarker lvl ≠ "END_PROTOCOL" :=
  append_ne_end_protocol "STRESS_" (toString lvl ++ "_BEGIN") 'S' rfl (by decide)

lemma stressEnd_ne_end (lvl : ℤ) : stressEndMarker lvl ≠ "END_PROTOCOL" :=
  append_ne_end_protocol "STRESS_" (toString lvl ++ "_END") 'S' rfl (by decide)

lemma end_protocol_not_in_protoLoop (levels : List ℤ) (outs : List Bool) :
    "END_PROTOCOL" ∉ (protoLoop levels outs).1 := by
  induction levels generalizing outs with
  | nil => simp [protoLoop]
  | cons lvl rest ih =>
    rcases h1 : takeOutcome outs with ⟨b1, outs1⟩
    cases b1
    · rcases h2 : takeOutcome outs1 with ⟨b2, outs2⟩
      cases b2
      · simp only [protoLoop, h1, h2, List.mem_cons, not_or]
        exact ⟨(restBegin_ne_end lvl).symm,
               (restEnd_ne_end lvl).symm,
               (stressBegin_ne_end lvl).symm,
               (stressEnd_ne_end lvl).symm,
               ih outs2⟩
      · simp only [protoLoop, h1, h2, List.mem_cons, not_or]
        exact ⟨(restBegin_ne_end lvl).symm,
               (restEnd_ne_end lvl).symm,
               (stressBegin_ne_end lvl).symm,
               List.not_mem_nil _⟩
    · simp only [protoLoop, h1, List.mem_cons, not_or]
      exact ⟨(restBegin_ne_end lvl).symm, List.not_mem_nil _⟩

/-- C6 counterexample: with levels `[0, 50]` and the simulated load
generator (no command ever raises), the second marker the code emits is
`REST_BEGIN_level_0` — the f-string at line 212 includes the text
`_level_` — not `REST_BEGIN_0`, so the claimed ten-marker sequence does not
match the emitted one. -/
theorem marker_names_counterexample :
    (mainProtocol [0, 50] []).markers[1]? = some "REST_BEGIN_level_0"
    ∧ (mainProtocol [0, 50] []).markers
        ≠ ["START_PROTOCOL", "REST_BEGIN_0", "REST_END_0", "STRESS_0_BEGIN",
           "STRESS_0_END", "REST_BEGIN_50", "REST_END_50", "STRESS_50_BEGIN",
           "STRESS_50_END", "END_PROTOCOL"] := by
  exact ⟨by decide, by decide⟩

/-- C6 (amended): running the phase controller with levels `[0, 50]` and
the simulated (non-real) load generator emits exactly ten markers in
exactly this order, with the rest markers carrying the `_level_` infix the
code actually writes: START_PROTOCOL, REST_BEGIN_level_0, REST_END_level_0,
STRESS_0_BEGIN, STRESS_0_END, REST_BEGIN_level_50, REST_END_level_50,
STRESS_50_BEGIN, STRESS_50_END, END_PROTOCOL. -/
theorem protocol_marker_sequence :
    (mainProtocol [0, 50] []).markers
      = ["START_PROTOCOL", "REST_BEGIN_level_0", "REST_END_level_0", "STRESS_0_BEGIN",
         "STRESS_0_END", "REST_BEGIN_level_50", "REST_END_level_50", "STRESS_50_BEGIN",
         "STRESS_50_END", "END_PROTOCOL"] := by decide

/-- C8 counterexample: when the third `run_cmd` invocation (the rest
command of level 50) raises, `main` never reaches
`sampler.mark("END_PROTOCOL")` — the call sits inside the `try` block after
the loop — although the `finally` teardown still stops the sampler.  So
END_PROTOCOL is not emitted on a run with a failing intermediate level. -/
theorem end_protocol_skipped_on_failure :
    "END_PROTOCOL" ∉ (mainProtocol [0, 50] [false, false, true]).markers
    ∧ (mainProtocol [0, 50] [false, false, true]).stopped = true := by
  exact ⟨by decide, rfl⟩

/-- C8 (amended): every run emits START_PROTOCOL before the first level and
always runs the teardown that stops the sampler; END_PROTOCOL is emitted
(as the final marker) exactly when every level completed — a load-generator
failure aborts the remaining levels and proceeds to teardown, but skips the
END_PROTOCOL marker. -/
theorem protocol_markers_bracketing (levels : List ℤ) (outs : List Bool) :
    (mainProtocol levels outs).markers.head? = some "START_PROTOCOL"
    ∧ (mainProtocol levels outs).stopped = true
    ∧ (if (mainProtocol levels outs).ok = true
       then (mainProtocol levels outs).markers.getLast? = some "END_PROTOCOL"
       else "END_PROTOCOL" ∉ (mainProtocol levels outs).markers) := by
  refine ⟨rfl, rfl, ?_⟩
  have hok : (mainProtocol levels outs).ok = (protoLoop levels outs).2.2 := rfl
  rw [hok]
  by_cases h : (protoLoop levels outs).2.2 = true
  · rw [if_pos h]
    have hm : (mainProtocol levels outs).markers
        = ("START_PROTOCOL" :: (protoLoop levels outs).1) ++ ["END_PROTOCOL"] := by
      simp [mainProtocol, h]
    rw [hm, List.getLast?_concat]
  · rw [if_neg h]
    have hm : (mainProtocol levels outs).markers
        = "START_PROTOCOL" :: (protoLoop levels outs).1 := by
      simp [mainProtocol, h]
    rw [hm, List.mem_cons, not_or]
    exact ⟨by decide, end_protocol_not_in_protoLoop levels outs⟩

theorem protocol_markers_bracketing_witness :
    (mainProtocol [0, 50] [false, false, true]).markers.head? = some "START_PROTOCOL"
    ∧ (mainProtocol [0, 50] [false, false, true]).stopped = true
    ∧ (if (mainProtocol [0, 50] [false, false, true]).ok = true
       then (mainProtocol [0, 50] [false, false, true]).markers.getLast?
              = some "END_PROTOCOL"
       else "END_PROTOCOL" ∉ (mainProtocol [0, 50] [false, false, true]).markers) :=
  protocol_markers_bracketing [0, 50] [false, false, true]

/-! ## Level-string parsing (`parse_levels`, main.py lines 161–177)

`String.splitOn`, `String.trim` and friends are defined by well-founded
recursion over byte positions and do not reduce definitionally, so the
Python string pipeline is embedded as structural functions over the
character list `String.data` of the input. -/

/-- Python `str.split(sep)` for a one-character separator: splits on every
occurrence and keeps empty pieces (so splitting the empty string gives one
empty piece). -/
def pySplit (sep : Char) : List Char → List (List Char)
  | [] => [[]]
  | c :: rest =>
    match pySplit sep rest with
    | [] => [[c]]
    | g :: gs => if c = sep then [] :: g :: gs else (c :: g) :: gs

/-- Python `str.strip()`: remove whitespace at both ends. -/
def pyStrip (s : List Char) : List Char :=
  ((s.dropWhile Char.isWhitespace).reverse.dropWhile Char.isWhitespace).reverse

/-- Python `str.lower()` (the code only compares ASCII). -/
def pyLower (s : List Char) : List Char := s.map Char.toLower

/-- Python `int(x)` for a decimal string: strips whitespace, accepts an
optional sign followed by one or more digits, and raises `ValueError`
(`none`) otherwise. -/
def pyInt? (s : List Char) : Option ℤ :=
  let t := pyStrip s
  let sd : ℤ × List Char :=
    match t with
    | '-' :: rest => (-1, rest)
    | '+' :: rest => (1, rest)
    | _ => (1, t)
  if sd.2 ≠ [] ∧ sd.2.all Char.isDigit then
    some (sd.1 * ((sd.2.foldl (fun acc c => 10 * acc + (c.toNat - '0'.toNat)) 0 : ℕ) : ℤ))
  else none

/-- `int(x)` inside a list comprehension: the `ValueError` it raises is the
comprehension's (the parse error the caller sees). -/
def pyIntE (x : List Char) : Except String ℤ :=
  match pyInt? x with
  | some n => .ok n
  | none => .error ("invalid literal for int: " ++ String.mk x)

/-- `list(range(a, b, step))`; Python `range` raises `ValueError` on a zero
step, and yields `max 0 ⌈(b−a)/step⌉` elements `a, a+step, …`. -/
def pyRange (a b step : ℤ) : Except String (List ℤ) :=
  if step = 0 then .error "range arg 3 must not be zero"
  else
    let count : ℕ :=
      if 0 < step then ((b - a + step - 1) / step).toNat
      else ((a - b - step - 1) / (-step)).toNat
    .ok ((List.range count).map (fun k => a + step * (k : ℤ)))

/-- The final line of `parse_levels`:
`[int(x) for x in s.split(",") if x.strip() != ""]` — split on commas,
keep only non-blank items, parse each as an int (raising on the first bad
one). -/
def commaLevels (s : List Char) : Except String (List ℤ) :=
  ((pySplit ',' s).filter (fun x => !(pyStrip x).isEmpty)).mapM pyIntE

/-- `parse_levels` (main.py lines 161–177): strip and lowercase the input;
the names default/std/standard map to the canonical sequence; a string
containing `:` parses all its int parts and, when there are exactly three,
returns the inclusive range `list(range(a, b+1, step))`; anything else
(including a `:`-string without exactly three parts) falls through to the
comma list.  A raised `ValueError` is modelled as `Except.error`. -/
def parse_levels (input : String) : Except String (List ℤ) :=
  let s : List Char := pyLower (pyStrip input.data)
  if s = "default".data ∨ s = "std".data ∨ s = "standard".data then
    .ok [0, 10, 20, 30, 40, 50, 60, 70, 80, 90, 100]
  else if ':' ∈ s then
    match (pySplit ':' s).mapM pyIntE with
    | .error e => .error e
    | .ok parts =>
      match parts with
      | [a, b, step] => pyRange a (b + 1) step
      | _ => commaLevels s
  else commaLevels s

/-- C7 counterexample: the empty string is an input yielding no levels, yet
`parse_levels` silently returns the empty list instead of raising — every
comma piece is blank, so the final comprehension filters them all out and
produces `[]` without error. -/
theorem parse_levels_empty_silent : parse_levels "" = .ok ([] : List ℤ) := rfl

/-- C7 (amended): `parse_levels` maps `"default"` to the canonical
sequence, `"0:100:25"` to `[0,25,50,75,100]`, `"5,7,9"` to `[5,7,9]`, and
raises a parse error on `"0:100"` (step missing); however an input whose
comma pieces are all blank — e.g. the empty string — silently returns the
empty list rather than raising. -/
theorem parse_levels_spec :
    parse_levels "default" = .ok [0, 10, 20, 30, 40, 50, 60, 70, 80, 90, 100]
    ∧ parse_levels "0:100:25" = .ok [0, 25, 50, 75, 100]
    ∧ parse_levels "5,7,9" = .ok [5, 7, 9]
    ∧ (∃ msg, parse_levels "0:100" = .error msg)
    ∧ parse_levels "" = .ok [] :=
  ⟨rfl, rfl, rfl, ⟨_, rfl⟩, rfl⟩

end StressEnergyCycle
